import Mathlib

/-!
Verification of the shoe-store inventory/POS core.

Shallow embedding of the reconciliation logic of the application:
* `src/App.tsx` — catalog/ledger state, `handleAddStock`, `handleUpdateStock`,
  `handleConfirmSale`, `handleRefund`, export/import, `stats`;
* `SaleModal` (src/unnamed/part_000) — `validateStock`, `handleSubmit`;
* `src/components/StockForm.tsx` — `handleSubmit` building the item data;
* the entity interfaces (src/unnamed/part_001).

JavaScript numbers are embedded as `ℤ`: the reconciliation code performs only
field reads, additions, subtractions, multiplications, `Math.max` and
comparisons on them, so the embedding is parametric in the numeric type, and
integers (the data model declares every quantity integral) keep every concrete
evaluation kernel-decidable.
Although the TypeScript interface declares `variants: StockVariant[]`, the
application code guards every access with `item.variants?.…` (data loaded from
storage may lack the field), so `variants` is embedded as
`Option (List StockVariant)`.  `SaleRecord.variantId`, `size`, `color` and the
descriptive item fields are optional in the interface and embedded as `Option`.
-/

namespace ShoeStore

/-- `StockVariant` (src/unnamed/part_001): one size/color SKU. -/
structure StockVariant where
  id : String
  size : String
  color : String
  quantity : ℤ
  deriving DecidableEq, Repr

/-- `StockItem` (src/unnamed/part_001): one purchased lot. -/
structure StockItem where
  id : String
  name : String
  category : Option String
  description : Option String
  imageUrl : Option String
  purchaseDate : String
  initialQuantity : ℤ
  currentQuantity : ℤ
  unitCost : ℤ
  totalCost : ℤ
  variants : Option (List StockVariant)
  deriving DecidableEq, Repr

/-- `SaleRecord` (src/unnamed/part_001): immutable ledger entry. -/
structure SaleRecord where
  id : String
  stockId : String
  variantId : Option String
  size : Option String
  color : Option String
  quantitySold : ℤ
  salePricePerUnit : ℤ
  saleDate : String
  totalRevenue : ℤ
  profit : ℤ
  deriving DecidableEq, Repr

/-- The application's global state: the `stocks` and `sales` React states of
`App` (src/App.tsx lines 23–41). -/
structure AppState where
  stocks : List StockItem
  sales : List SaleRecord
  deriving DecidableEq, Repr

/-- `variants.reduce((sum, v) => sum + v.quantity, 0)` (src/App.tsx 174, 211;
StockForm 42). -/
def variantSum (vs : List StockVariant) : ℤ :=
  (vs.map (·.quantity)).sum

/-- `handleAddStock` (src/App.tsx 134–137): prepend the new item. -/
def handleAddStock (newItem : StockItem) (σ : AppState) : AppState :=
  { σ with stocks := newItem :: σ.stocks }

/-- `handleUpdateStock` (src/App.tsx 139–143): replace the item with the same id. -/
def handleUpdateStock (updatedItem : StockItem) (σ : AppState) : AppState :=
  { σ with stocks := σ.stocks.map fun item =>
      if item.id == updatedItem.id then updatedItem else item }

/-- The variant update of `handleConfirmSale` (src/App.tsx 163–172):
for each variant, `newRecords.find(r => r.variantId === variant.id)`; if a
record is found, clamp-subtract its `quantitySold`. -/
def applySaleVariants (newRecords : List SaleRecord) (vs : List StockVariant) :
    List StockVariant :=
  vs.map fun variant =>
    match newRecords.find? (fun r => r.variantId == some variant.id) with
    | some saleForVariant =>
        { variant with quantity := max 0 (variant.quantity - saleForVariant.quantitySold) }
    | none => variant

/-- `handleConfirmSale` (src/App.tsx 156–183): early-return on an empty batch,
prepend the records to the ledger, and for the item whose id is
`newRecords[0].stockId` rebuild the variants (`item.variants?.map(...) || []`)
and recompute `currentQuantity` as their sum. -/
def handleConfirmSale (newRecords : List SaleRecord) (σ : AppState) : AppState :=
  match newRecords with
  | [] => σ
  | r0 :: _ =>
    let stocks' := σ.stocks.map fun item =>
      if item.id == r0.stockId then
        let updatedVariants :=
          match item.variants with
          | some vs => applySaleVariants newRecords vs
          | none => []
        { item with
            variants := some updatedVariants
            currentQuantity := variantSum updatedVariants }
      else item
    { stocks := stocks', sales := newRecords ++ σ.sales }

/-- The variant update of `handleRefund` (src/App.tsx 199–204): add
`sale.quantitySold` back to the variant with `variant.id === sale.variantId`. -/
def refundVariants (sale : SaleRecord) (vs : List StockVariant) : List StockVariant :=
  vs.map fun variant =>
    if sale.variantId == some variant.id then
      { variant with quantity := variant.quantity + sale.quantitySold }
    else variant

/-- `handleRefund` (src/App.tsx 186–227), confirmed path: remove the sale
record from the ledger; if the stock item still exists, rebuild
`updatedVariants = item.variants?.map(...)`, set `currentQuantity` to the new
variant sum when `updatedVariants` is an array and to
`item.currentQuantity + sale.quantitySold` when it is `undefined`, and keep
`variants: updatedVariants || item.variants`. -/
def handleRefund (sale : SaleRecord) (σ : AppState) : AppState :=
  let sales' := σ.sales.filter fun s => !(s.id == sale.id)
  match σ.stocks.find? (fun s => s.id == sale.stockId) with
  | none => { σ with sales := sales' }
  | some _ =>
    let stocks' := σ.stocks.map fun item =>
      if item.id == sale.stockId then
        let updatedVariants := item.variants.map (refundVariants sale)
        let newTotalQuantity :=
          match updatedVariants with
          | some uvs => variantSum uvs
          | none => item.currentQuantity + sale.quantitySold
        { item with
            variants := match updatedVariants with
              | some uvs => some uvs
              | none => item.variants
            currentQuantity := newTotalQuantity }
      else item
    { stocks := stocks', sales := sales' }

/-- The item built by `StockForm.handleSubmit` (src/components/StockForm.tsx
144–170): `currentQuantity` is reset to the variant total, `initialQuantity`,
`purchaseDate` and `id` are kept from `initialData` when editing. -/
def mkItemData (initialData : Option StockItem) (freshId : String)
    (nm cat desc : String) (img : Option String) (uc : ℤ) (pd : String)
    (vs : List StockVariant) : StockItem :=
  let totalQuantity := variantSum vs
  { id := match initialData with | some i => i.id | none => freshId
    name := nm
    category := some cat
    description := some desc
    imageUrl := img
    initialQuantity := match initialData with | some i => i.initialQuantity | none => totalQuantity
    currentQuantity := totalQuantity
    unitCost := uc
    totalCost := totalQuantity * uc
    purchaseDate := match initialData with | some i => i.purchaseDate | none => pd
    variants := some vs }

/-- `StockForm.handleSubmit` wired to `App` (StockForm 144–170, App 134–143):
rejected when the variant total is 0, otherwise `onUpdateStock` when editing
and `onAddStock` when creating. -/
def stockFormSubmit (initialData : Option StockItem) (freshId : String)
    (nm cat desc : String) (img : Option String) (uc : ℤ) (pd : String)
    (vs : List StockVariant) (σ : AppState) : AppState :=
  if variantSum vs = 0 then σ
  else
    let itemData := mkItemData initialData freshId nm cat desc img uc pd vs
    match initialData with
    | some _ => handleUpdateStock itemData σ
    | none => handleAddStock itemData σ

/-- `PriceEntry` (SaleModal, src/unnamed/part_000): one input line of a sale.
`quantity` and `price` pass through `getNumber` before every use, so they are
embedded directly as the resulting numbers. -/
structure PriceEntry where
  id : String
  variantId : String
  quantity : ℤ
  price : ℤ
  deriving DecidableEq, Repr

/-- The per-variant total of `requestedStock` built by `SaleModal.validateStock`
(part_000 56–60): the summed `quantity` of all entries naming `vid`. -/
def requestedQty (entries : List PriceEntry) (vid : String) : ℤ :=
  ((entries.filter (fun e => e.variantId == vid)).map (·.quantity)).sum

/-- `SaleModal.validateStock` (part_000 55–68): entries with an empty
`variantId` are skipped; every requested variant must exist in
`stock.variants` and cover the summed requested quantity.  Checking each
requested `variantId` once per entry naming it yields the same boolean as the
source's iteration over the distinct keys of `requestedStock`. -/
def validateStock (stock : StockItem) (entries : List PriceEntry) : Bool :=
  (entries.filter (fun e => !(e.variantId == ""))).all fun e =>
    match (stock.variants.getD []).find? (fun v => v.id == e.variantId) with
    | some variant => requestedQty entries e.variantId ≤ variant.quantity
    | none => false

/-- The sale-path error taxonomy (spec §7).  The SaleModal reports the first
two; `unknownVariant` appears only in the spec-side comparator. -/
inductive SaleError where
  | insufficientStock
  | emptySale
  | unknownVariant
  deriving DecidableEq, Repr

/-- The filter of `validEntries` (part_000 106): positive quantity and a
non-empty `variantId`. -/
def isValidEntry (e : PriceEntry) : Bool :=
  decide (0 < e.quantity) && !(e.variantId == "")

/-- One record built by `SaleModal.handleSubmit` (part_000 112–129).  `rid` is
the fresh record id, `d` the `saleDate` timestamp.  `variant?.size || 'Unknown'`
falls back to `"Unknown"` both when the variant is missing and when the field
is the empty string. -/
def mkSaleRecord (stock : StockItem) (rid : String) (d : String)
    (e : PriceEntry) : SaleRecord :=
  let variant := (stock.variants.getD []).find? (fun v => v.id == e.variantId)
  { id := rid
    stockId := stock.id
    variantId := some e.variantId
    size := some (match variant with
      | some v => if v.size == "" then "Unknown" else v.size
      | none => "Unknown")
    color := some (match variant with
      | some v => if v.color == "" then "Unknown" else v.color
      | none => "Unknown")
    quantitySold := e.quantity
    salePricePerUnit := e.price
    saleDate := d
    totalRevenue := e.quantity * e.price
    profit := (e.price - stock.unitCost) * e.quantity }

/-- The record batch of `SaleModal.handleSubmit`: one record per valid entry,
with ids supplied by `rid` (each `crypto.randomUUID()` call, numbered). -/
def mkSaleRecords (stock : StockItem) (rid : ℕ → String) (d : String)
    (entries : List PriceEntry) : List SaleRecord :=
  entries.enum.map fun p => mkSaleRecord stock (rid p.1) d p.2

/-- `SaleModal.handleSubmit` (part_000 98–134) up to the `onConfirmSale` call:
rejects when `validateStock` fails (the insufficient-stock error message),
then rejects when no valid entries remain (the empty-sale error message),
otherwise produces the record batch. -/
def saleModalSubmit (stock : StockItem) (rid : ℕ → String) (d : String)
    (entries : List PriceEntry) : Except SaleError (List SaleRecord) :=
  if validateStock stock entries then
    let validEntries := entries.filter isValidEntry
    if validEntries.isEmpty then .error .emptySale
    else .ok (mkSaleRecords stock rid d validEntries)
  else .error .insufficientStock

/-- The whole sale attempt as the app state sees it: on success the records
are committed through `handleConfirmSale`, on rejection nothing runs. -/
def saleFlow (stock : StockItem) (rid : ℕ → String) (d : String)
    (entries : List PriceEntry) (σ : AppState) : AppState :=
  match saleModalSubmit stock rid d entries with
  | .ok rs => handleConfirmSale rs σ
  | .error _ => σ

/-! ### Backup codec

The export document is modeled at the parsed-JSON level (the
`JSON.stringify`/`JSON.parse` string layer is the standard library and is not
re-verified here): a small JSON value type, the field-by-field encoding that
`JSON.stringify` performs on the app's entities (dropping `undefined`-valued
optional keys, as stringify does), and the import validation of
`handleFileImport`. -/

/-- A parsed JSON document. -/
inductive Json where
  | null
  | bool (b : Bool)
  | num (q : ℤ)
  | str (s : String)
  | arr (elems : List Json)
  | obj (fields : List (String × Json))

/-- Property access `data.k` on a parsed object. -/
def lookupField : List (String × Json) → String → Option Json
  | [], _ => none
  | (k, v) :: rest, key => if k == key then some v else lookupField rest key

/-- `data.k` for an arbitrary parsed value (non-objects have no fields). -/
def Json.lookup : Json → String → Option Json
  | .obj fields, key => lookupField fields key
  | _, _ => none

/-- JavaScript truthiness of a parsed JSON value (arrays and objects are
always truthy, including `[]` and the empty object). -/
def jsTruthy : Json → Bool
  | .null => false
  | .bool b => b
  | .num q => !(q == 0)
  | .str s => !(s == "")
  | .arr _ => true
  | .obj _ => true

/-- Encoding of a `StockVariant` as `JSON.stringify` serializes it. -/
def encodeVariant (v : StockVariant) : Json :=
  .obj [("id", .str v.id), ("size", .str v.size), ("color", .str v.color),
        ("quantity", .num v.quantity)]

/-- Key present exactly when the optional string field is present
(`JSON.stringify` drops keys whose value is `undefined`). -/
def optStrField (k : String) : Option String → List (String × Json)
  | some s => [(k, .str s)]
  | none => []

/-- Encoding of a `StockItem` as `JSON.stringify` serializes it. -/
def encodeStockItem (it : StockItem) : Json :=
  .obj ([("id", .str it.id), ("name", .str it.name)]
    ++ optStrField "category" it.category
    ++ optStrField "description" it.description
    ++ optStrField "imageUrl" it.imageUrl
    ++ [("purchaseDate", .str it.purchaseDate),
        ("initialQuantity", .num it.initialQuantity),
        ("currentQuantity", .num it.currentQuantity),
        ("unitCost", .num it.unitCost),
        ("totalCost", .num it.totalCost)]
    ++ (match it.variants with
        | some vs => [("variants", .arr (vs.map encodeVariant))]
        | none => []))

/-- Encoding of a `SaleRecord` as `JSON.stringify` serializes it. -/
def encodeSaleRecord (r : SaleRecord) : Json :=
  .obj ([("id", .str r.id), ("stockId", .str r.stockId)]
    ++ optStrField "variantId" r.variantId
    ++ optStrField "size" r.size
    ++ optStrField "color" r.color
    ++ [("quantitySold", .num r.quantitySold),
        ("salePricePerUnit", .num r.salePricePerUnit),
        ("saleDate", .str r.saleDate),
        ("totalRevenue", .num r.totalRevenue),
        ("profit", .num r.profit)])

/-- The export document of `handleExportData` (src/App.tsx 249–258):
`{ stocks, sales, exportDate, version: '1.2' }`. -/
def exportData (σ : AppState) (exportDate : String) : Json :=
  .obj [("stocks", .arr (σ.stocks.map encodeStockItem)),
        ("sales", .arr (σ.sales.map encodeSaleRecord)),
        ("exportDate", .str exportDate),
        ("version", .str "1.2")]

/-- The validation and extraction of `handleFileImport` (src/App.tsx 293–308):
reject unless `data.stocks` is present, truthy and an array; the new ledger
value is `data.sales || []`.  The result is the raw parsed data that becomes
the new state (the code performs no deeper decoding). -/
def importData (j : Json) : Option (List Json × Json) :=
  match j.lookup "stocks" with
  | some (.arr stocks) =>
    let salesVal := match j.lookup "sales" with
      | some v => if jsTruthy v then v else .arr []
      | none => .arr []
    some (stocks, salesVal)
  | _ => none

/-- Reading a string field back from a parsed object. -/
def Json.asStr : Json → Option String
  | .str s => some s
  | _ => none

/-- Reading a numeric field back from a parsed object. -/
def Json.asNum : Json → Option ℤ
  | .num q => some q
  | _ => none

/-- Reading an optional string field back: an absent key is `none`. -/
def decodeOptStr (j : Json) (k : String) : Option (Option String) :=
  match j.lookup k with
  | none => some none
  | some (.str s) => some (some s)
  | some _ => none

/-- The canonical reading of a serialized `StockVariant`. -/
def decodeVariant (j : Json) : Option StockVariant := do
  let id ← (j.lookup "id").bind Json.asStr
  let size ← (j.lookup "size").bind Json.asStr
  let color ← (j.lookup "color").bind Json.asStr
  let quantity ← (j.lookup "quantity").bind Json.asNum
  pure ⟨id, size, color, quantity⟩

/-- The canonical reading of a serialized `StockItem`. -/
def decodeStockItem (j : Json) : Option StockItem := do
  let id ← (j.lookup "id").bind Json.asStr
  let nm ← (j.lookup "name").bind Json.asStr
  let category ← decodeOptStr j "category"
  let description ← decodeOptStr j "description"
  let imageUrl ← decodeOptStr j "imageUrl"
  let purchaseDate ← (j.lookup "purchaseDate").bind Json.asStr
  let initialQuantity ← (j.lookup "initialQuantity").bind Json.asNum
  let currentQuantity ← (j.lookup "currentQuantity").bind Json.asNum
  let unitCost ← (j.lookup "unitCost").bind Json.asNum
  let totalCost ← (j.lookup "totalCost").bind Json.asNum
  let variants ← match j.lookup "variants" with
    | none => pure none
    | some (.arr l) => (l.mapM decodeVariant).map some
    | some _ => none
  pure ⟨id, nm, category, description, imageUrl, purchaseDate, initialQuantity,
        currentQuantity, unitCost, totalCost, variants⟩

/-- The canonical reading of a serialized `SaleRecord`. -/
def decodeSaleRecord (j : Json) : Option SaleRecord := do
  let id ← (j.lookup "id").bind Json.asStr
  let stockId ← (j.lookup "stockId").bind Json.asStr
  let variantId ← decodeOptStr j "variantId"
  let size ← decodeOptStr j "size"
  let color ← decodeOptStr j "color"
  let quantitySold ← (j.lookup "quantitySold").bind Json.asNum
  let salePricePerUnit ← (j.lookup "salePricePerUnit").bind Json.asNum
  let saleDate ← (j.lookup "saleDate").bind Json.asStr
  let totalRevenue ← (j.lookup "totalRevenue").bind Json.asNum
  let profit ← (j.lookup "profit").bind Json.asNum
  pure ⟨id, stockId, variantId, size, color, quantitySold, salePricePerUnit,
        saleDate, totalRevenue, profit⟩

/-! ### Statistics -/

/-- A JavaScript `Date` value, abstracted by the components its local-time
accessors return (`getFullYear`, `getMonth`, `getDate`, `getHours`,
`getMinutes` — all in the observer's local time zone by the JS `Date` API). -/
structure JSDate where
  localYear : ℕ
  localMonth : ℕ
  localDay : ℕ
  localHour : ℕ
  localMinute : ℕ
  deriving DecidableEq, Repr

/-- The template string
`` `${d.getFullYear()}-${d.getMonth()}-${d.getDate()}` `` of `stats`
(src/App.tsx 327, 331). -/
def dateKey (d : JSDate) : String :=
  Nat.repr d.localYear ++ "-" ++ Nat.repr d.localMonth ++ "-" ++ Nat.repr d.localDay

/-- `DashboardStats` (src/unnamed/part_001). -/
structure DashboardStats where
  totalInventoryCount : ℤ
  totalInventoryValue : ℤ
  totalRevenue : ℤ
  totalProfit : ℤ
  salesToday : ℕ
  deriving DecidableEq, Repr

/-- The `stats` memo (src/App.tsx 319–342).  `env` embeds
`s => new Date(s)` — the local-time interpretation of a timestamp string in
the observer's time zone; `now` is `new Date()`. -/
def statsOf (env : String → JSDate) (now : JSDate) (σ : AppState) : DashboardStats :=
  { totalInventoryCount := (σ.stocks.map (·.currentQuantity)).sum
    totalInventoryValue := (σ.stocks.map (fun it => it.currentQuantity * it.unitCost)).sum
    totalRevenue := (σ.sales.map (·.totalRevenue)).sum
    totalProfit := (σ.sales.map (·.profit)).sum
    salesToday :=
      (σ.sales.filter fun s => dateKey (env s.saleDate) == dateKey now).length }

/-- Same local calendar date: equal local year, month and day. -/
def sameLocalDate (d₁ d₂ : JSDate) : Bool :=
  d₁.localYear == d₂.localYear && d₁.localMonth == d₂.localMonth &&
    d₁.localDay == d₂.localDay

/-! ### Decimal rendering

`dateKey` compares `Nat.repr`-rendered components; the development below
relates core's fuel-based digit printer to a structural recursion and builds
the decoder that makes the rendering injective. -/

/-- The decimal digits of `n`, most significant first. -/
def repChars (n : ℕ) : List Char :=
  if _h : n < 10 then [Nat.digitChar n]
  else repChars (n / 10) ++ [Nat.digitChar (n % 10)]
  termination_by n
  decreasing_by exact Nat.div_lt_self (by omega) (by omega)

/-- Numeric value of a decimal digit character. -/
def digitVal (c : Char) : ℕ := c.toNat - 48

/-- Decimal decoding of a digit string, most significant first. -/
def decodeChars (ds : List Char) : ℕ :=
  ds.foldl (fun a c => 10 * a + digitVal c) 0

/-- The data-model invariant of spec §3: `currentQuantity` equals the sum of
the variant quantities (an absent `variants` field counts as no variants). -/
def invQty (it : StockItem) : Prop :=
  it.currentQuantity = variantSum (it.variants.getD [])

instance (it : StockItem) : Decidable (invQty it) := by
  unfold invQty
  infer_instance

/-! ## Helper lemmas -/

theorem variantSum_append (a b : List StockVariant) :
    variantSum (a ++ b) = variantSum a + variantSum b := by
  simp [variantSum]

theorem variantSum_cons (v : StockVariant) (vs : List StockVariant) :
    variantSum (v :: vs) = v.quantity + variantSum vs := by
  simp [variantSum]

theorem refundVariants_no_match {sale : SaleRecord} {vs : List StockVariant}
    (h : ∀ v ∈ vs, sale.variantId ≠ some v.id) :
    refundVariants sale vs = vs := by
  induction vs with
  | nil => rfl
  | cons v t ih =>
    have h1 : (sale.variantId == some v.id) = false :=
      beq_eq_false_iff_ne.mpr (h v (by simp))
    have h2 := ih fun u hu => h u (List.mem_cons_of_mem _ hu)
    simp only [refundVariants, List.map_cons, h1, Bool.false_eq_true, if_false] at *
    rw [h2]

/-! ## C6 — historical profit immutability -/

/-- C6: editing a stock item (`handleUpdateStock`, in particular with a new
`unitCost`) leaves the sales ledger entirely unchanged, and every record
emitted by the sale modal stores `profit` and `totalRevenue` computed from the
stock item's `unitCost` at the moment of sale. -/
theorem edit_never_changes_recorded_profit :
    (∀ (u : StockItem) (σ : AppState), (handleUpdateStock u σ).sales = σ.sales) ∧
    (∀ (st : StockItem) (rid : ℕ → String) (d : String) (es : List PriceEntry),
      ∀ r ∈ mkSaleRecords st rid d es,
        r.profit = (r.salePricePerUnit - st.unitCost) * r.quantitySold ∧
        r.totalRevenue = r.quantitySold * r.salePricePerUnit) := by
  refine ⟨fun u σ => rfl, fun st rid d es r hr => ?_⟩
  obtain ⟨p, hp, rfl⟩ := List.mem_map.1 hr
  exact ⟨rfl, rfl⟩

/-- Witness for C6 at a concrete sale of one line (price 200, unit cost 100,
quantity 1). -/
theorem edit_never_changes_recorded_profit_witness :
    (mkSaleRecord ⟨"s1", "Shoe", some "cat", some "", none, "2024-01-01", 5, 5, 100, 500,
        some [⟨"v1", "38", "red", 5⟩]⟩ "R0" "d" ⟨"e1", "v1", 1, 200⟩).profit
      = ((mkSaleRecord ⟨"s1", "Shoe", some "cat", some "", none, "2024-01-01", 5, 5, 100, 500,
        some [⟨"v1", "38", "red", 5⟩]⟩ "R0" "d" ⟨"e1", "v1", 1, 200⟩).salePricePerUnit - 100)
        * (mkSaleRecord ⟨"s1", "Shoe", some "cat", some "", none, "2024-01-01", 5, 5, 100, 500,
        some [⟨"v1", "38", "red", 5⟩]⟩ "R0" "d" ⟨"e1", "v1", 1, 200⟩).quantitySold :=
  (edit_never_changes_recorded_profit.2
    ⟨"s1", "Shoe", some "cat", some "", none, "2024-01-01", 5, 5, 100, 500,
        some [⟨"v1", "38", "red", 5⟩]⟩ (fun _ => "R0") "d" [⟨"e1", "v1", 1, 200⟩]
    _ (by decide)).1

/-! ## C10 — frame property of committing a sale batch -/

/-- C10: `handleConfirmSale` with an empty batch is the identity; with a
non-empty batch it prepends exactly the batch to the ledger, keeps the
catalog's length, and leaves every stock item whose id differs from the
records' shared `stockId` unchanged in all fields. -/
theorem confirmSale_frame :
    (∀ σ : AppState, handleConfirmSale [] σ = σ) ∧
    (∀ (r : SaleRecord) (rs : List SaleRecord) (σ : AppState),
      (handleConfirmSale (r :: rs) σ).sales = (r :: rs) ++ σ.sales ∧
      (handleConfirmSale (r :: rs) σ).stocks.length = σ.stocks.length ∧
      (∀ (i : ℕ) (it : StockItem), σ.stocks[i]? = some it → it.id ≠ r.stockId →
        (handleConfirmSale (r :: rs) σ).stocks[i]? = some it)) := by
  refine ⟨fun σ => rfl, fun r rs σ => ⟨rfl, ?_, ?_⟩⟩
  · simp [handleConfirmSale]
  · intro i it hi hne
    simp only [handleConfirmSale, List.getElem?_map, hi, Option.map_some']
    rw [if_neg (by simp [hne])]

/-- Witness for C10: a batch for item "s1" leaves the unrelated item "s2"
untouched at its position. -/
theorem confirmSale_frame_witness :
    (handleConfirmSale [⟨"r1", "s1", some "v1", none, none, 1, 200, "d", 200, 100⟩]
        ⟨[⟨"s1", "A", none, none, none, "p", 5, 5, 100, 500, some [⟨"v1", "38", "red", 5⟩]⟩,
          ⟨"s2", "B", none, none, none, "p", 9, 9, 50, 450, some [⟨"w1", "40", "blue", 9⟩]⟩],
         []⟩).stocks[1]?
      = some ⟨"s2", "B", none, none, none, "p", 9, 9, 50, 450, some [⟨"w1", "40", "blue", 9⟩]⟩ :=
  (confirmSale_frame.2 ⟨"r1", "s1", some "v1", none, none, 1, 200, "d", 200, 100⟩ []
      ⟨[⟨"s1", "A", none, none, none, "p", 5, 5, 100, 500, some [⟨"v1", "38", "red", 5⟩]⟩,
        ⟨"s2", "B", none, none, none, "p", 9, 9, 50, 450, some [⟨"w1", "40", "blue", 9⟩]⟩],
       []⟩).2.2 1 _ (by decide) (by decide)

/-! ## C2 — per-variant subtraction in a sale batch -/

/-- C2 (code bug): a validated batch may contain several records for the same
variant (the validator sums them), but `handleConfirmSale` subtracts only the
first matching record's `quantitySold` (`newRecords.find`), not the sum.
Concretely: a variant holding 5 and a batch of two records of 2 each for it
leaves quantity 3, where the summed subtraction clamped at 0 would leave 1. -/
theorem confirmSale_subtracts_only_first_matching_record :
    (handleConfirmSale
        [⟨"r1", "s1", some "v1", some "38", some "red", 2, 200, "d", 400, 200⟩,
         ⟨"r2", "s1", some "v1", some "38", some "red", 2, 200, "d", 400, 200⟩]
        ⟨[⟨"s1", "Shoe", some "cat", some "", none, "2024-01-01", 5, 5, 100, 500,
            some [⟨"v1", "38", "red", 5⟩]⟩], []⟩).stocks
      = [⟨"s1", "Shoe", some "cat", some "", none, "2024-01-01", 5, 3, 100, 500,
          some [⟨"v1", "38", "red", 3⟩]⟩] ∧
    (3 : ℤ) ≠ max 0 (5 - (2 + 2)) := by
  decide

/-! ## C3 — refund when the sold variant no longer exists -/

/-- C3 (counterexample): the item "s1" still exists, its variant list is
present but no longer contains the sold variant "v1"; the refund leaves the
item completely unchanged — `currentQuantity` stays 7 (the variant sum), it
is not increased by the refunded quantity 3. -/
theorem refund_deleted_variant_counterexample :
    handleRefund ⟨"r3", "s1", some "v1", some "38", some "red", 3, 200, "d", 600, 300⟩
        ⟨[⟨"s1", "Shoe", some "cat", some "", none, "2024-01-01", 7, 7, 100, 700,
            some [⟨"v2", "40", "blue", 7⟩]⟩],
         [⟨"r3", "s1", some "v1", some "38", some "red", 3, 200, "d", 600, 300⟩]⟩
      = ⟨[⟨"s1", "Shoe", some "cat", some "", none, "2024-01-01", 7, 7, 100, 700,
            some [⟨"v2", "40", "blue", 7⟩]⟩], []⟩ ∧
    (7 : ℤ) + 3 ≠ 7 := by
  decide

/-- C3 (amended): when the refunded sale's `variantId` matches no variant and
the item's `variants` list is present, the refund leaves the variants
unchanged and recomputes `currentQuantity` as their sum — the refunded
quantity is silently not restored; the direct
`currentQuantity + sale.quantitySold` fallback fires only when the `variants`
field is absent altogether. -/
theorem refund_deleted_variant_amended (it : StockItem) (sale : SaleRecord)
    (sales : List SaleRecord) (hid : it.id = sale.stockId) :
    (∀ vs, it.variants = some vs → (∀ v ∈ vs, sale.variantId ≠ some v.id) →
      handleRefund sale ⟨[it], sales⟩ =
        ⟨[{ it with currentQuantity := variantSum vs }],
         sales.filter fun s => !(s.id == sale.id)⟩) ∧
    (it.variants = none →
      handleRefund sale ⟨[it], sales⟩ =
        ⟨[{ it with currentQuantity := it.currentQuantity + sale.quantitySold }],
         sales.filter fun s => !(s.id == sale.id)⟩) := by
  have hbeq : (it.id == sale.stockId) = true := beq_iff_eq.mpr hid
  constructor
  · intro vs hvs hnm
    simp [handleRefund, hbeq, hvs, refundVariants_no_match hnm]
    intro h
    exact absurd hid h
  · intro hvs
    simp [handleRefund, hbeq, hvs]
    intro h
    exact absurd hid h

/-- Witness for C3's amended statement: the counterexample item, through the
amended theorem. -/
theorem refund_deleted_variant_amended_witness :
    handleRefund ⟨"r3", "s1", some "v1", some "38", some "red", 3, 200, "d", 600, 300⟩
        ⟨[⟨"s1", "Shoe", some "cat", some "", none, "2024-01-01", 7, 9, 100, 700,
            some [⟨"v2", "40", "blue", 7⟩]⟩], []⟩
      = ⟨[⟨"s1", "Shoe", some "cat", some "", none, "2024-01-01", 7, 7, 100, 700,
            some [⟨"v2", "40", "blue", 7⟩]⟩], []⟩ :=
  (refund_deleted_variant_amended
      ⟨"s1", "Shoe", some "cat", some "", none, "2024-01-01", 7, 9, 100, 700,
        some [⟨"v2", "40", "blue", 7⟩]⟩
      ⟨"r3", "s1", some "v1", some "38", some "red", 3, 200, "d", 600, 300⟩
      [] (by decide)).1 [⟨"v2", "40", "blue", 7⟩] (by decide) (by decide)

/-! ## C1 — the `currentQuantity` invariant across operations -/

theorem invQty_mkItemData (ini : Option StockItem) (fid nm cat desc : String)
    (img : Option String) (uc : ℤ) (pd : String) (vs : List StockVariant) :
    invQty (mkItemData ini fid nm cat desc img uc pd vs) := rfl

/-- C1: if every catalog item satisfies `currentQuantity = Σ variant
quantities`, then the invariant still holds for every item after an add or
edit through the stock form, after committing any sale batch, and after a
refund whose target item (if present) still carries a `variants` list — the
only escape is the degraded refund of an item whose sold variant data is
absent, the known deviation the claim excepts. -/
theorem invariant_after_operations (σ : AppState)
    (hσ : ∀ it ∈ σ.stocks, invQty it) :
    (∀ (ini : Option StockItem) (fid nm cat desc : String) (img : Option String)
        (uc : ℤ) (pd : String) (vs : List StockVariant),
        ∀ it ∈ (stockFormSubmit ini fid nm cat desc img uc pd vs σ).stocks, invQty it) ∧
    (∀ rs : List SaleRecord, ∀ it ∈ (handleConfirmSale rs σ).stocks, invQty it) ∧
    (∀ sale : SaleRecord,
        (∀ it ∈ σ.stocks, it.id = sale.stockId → it.variants.isSome) →
        ∀ it ∈ (handleRefund sale σ).stocks, invQty it) := by
  refine ⟨?_, ?_, ?_⟩
  · intro ini fid nm cat desc img uc pd vs it hit
    unfold stockFormSubmit at hit
    split at hit
    · exact hσ it hit
    · cases ini with
      | some i =>
        simp only [handleUpdateStock] at hit
        obtain ⟨x, hx, rfl⟩ := List.mem_map.1 hit
        by_cases h : (x.id == (mkItemData (some i) fid nm cat desc img uc pd vs).id) = true
        · rw [if_pos h]
          exact invQty_mkItemData _ _ _ _ _ _ _ _ _
        · rw [if_neg h]
          exact hσ x hx
      | none =>
        simp only [handleAddStock] at hit
        rcases List.mem_cons.1 hit with rfl | hx
        · exact invQty_mkItemData _ _ _ _ _ _ _ _ _
        · exact hσ _ hx
  · intro rs it hit
    cases rs with
    | nil => exact hσ it hit
    | cons r0 rtl =>
      simp only [handleConfirmSale] at hit
      obtain ⟨x, hx, rfl⟩ := List.mem_map.1 hit
      by_cases h : (x.id == r0.stockId) = true
      · rw [if_pos h]
        simp [invQty]
      · rw [if_neg h]
        exact hσ x hx
  · intro sale hvar it hit
    unfold handleRefund at hit
    split at hit
    · exact hσ it hit
    · simp only at hit
      obtain ⟨x, hx, rfl⟩ := List.mem_map.1 hit
      by_cases h : (x.id == sale.stockId) = true
      · obtain ⟨vs, hvs⟩ := Option.isSome_iff_exists.mp (hvar x hx (beq_iff_eq.mp h))
        rw [if_pos h]
        simp [invQty, hvs]
      · rw [if_neg h]
        exact hσ x hx

/-- Witness for C1: the invariant holds for the item left by a concrete sale
(variant 5 minus 2, total recomputed to 3). -/
theorem invariant_after_operations_witness :
    invQty ⟨"s1", "Shoe", some "cat", some "", none, "2024-01-01", 5, 3, 100, 500,
        some [⟨"v1", "38", "red", 3⟩]⟩ :=
  (invariant_after_operations
      ⟨[⟨"s1", "Shoe", some "cat", some "", none, "2024-01-01", 5, 5, 100, 500,
          some [⟨"v1", "38", "red", 5⟩]⟩], []⟩ (by decide)).2.1
    [⟨"r1", "s1", some "v1", some "38", some "red", 2, 200, "d", 400, 200⟩]
    _ (by decide)

/-! ## C4 — overdraw rejects the whole batch -/

/-- C4: if any requested variant is overdrawn (its summed requested quantity
over the lines naming it exceeds its stock), the sale attempt is rejected as a
whole: `SaleModal.handleSubmit` reports the insufficient-stock error, emits no
record, and the application state is exactly the state before the call. -/
theorem sale_overdraw_rejected (σ : AppState) (st : StockItem) (rid : ℕ → String)
    (d : String) (es : List PriceEntry) (e : PriceEntry) (v : StockVariant)
    (he : e ∈ es) (hne : e.variantId ≠ "")
    (hfind : (st.variants.getD []).find? (fun u => u.id == e.variantId) = some v)
    (hover : v.quantity < requestedQty es e.variantId) :
    saleModalSubmit st rid d es = .error .insufficientStock ∧
    saleFlow st rid d es σ = σ := by
  have hval : validateStock st es = false := by
    unfold validateStock
    rw [List.all_eq_false]
    refine ⟨e, List.mem_filter.2 ⟨he, by simp [hne]⟩, ?_⟩
    simp [hfind, hover, not_le.2 hover]
  refine ⟨?_, ?_⟩
  · simp [saleModalSubmit, hval]
  · simp [saleFlow, saleModalSubmit, hval]

/-- Witness for C4: requesting 6 of a variant holding 5 changes nothing. -/
theorem sale_overdraw_rejected_witness :
    saleModalSubmit ⟨"s1", "Shoe", some "cat", some "", none, "2024-01-01", 5, 5, 100, 500,
        some [⟨"v1", "38", "red", 5⟩]⟩ (fun _ => "R0") "d" [⟨"e1", "v1", 6, 200⟩]
      = .error .insufficientStock ∧
    saleFlow ⟨"s1", "Shoe", some "cat", some "", none, "2024-01-01", 5, 5, 100, 500,
        some [⟨"v1", "38", "red", 5⟩]⟩ (fun _ => "R0") "d" [⟨"e1", "v1", 6, 200⟩]
        ⟨[⟨"s1", "Shoe", some "cat", some "", none, "2024-01-01", 5, 5, 100, 500,
            some [⟨"v1", "38", "red", 5⟩]⟩], []⟩
      = ⟨[⟨"s1", "Shoe", some "cat", some "", none, "2024-01-01", 5, 5, 100, 500,
            some [⟨"v1", "38", "red", 5⟩]⟩], []⟩ :=
  sale_overdraw_rejected _ _ _ _ _ ⟨"e1", "v1", 6, 200⟩ ⟨"v1", "38", "red", 5⟩
    (by decide) (by decide) (by decide) (by decide)

/-! ## C7 — what decides a sale attempt's outcome -/

theorem validateStock_eq_true_iff (st : StockItem) (es : List PriceEntry) :
    validateStock st es = true ↔
      ∀ e ∈ es, e.variantId ≠ "" →
        ∃ v, (st.variants.getD []).find? (fun u => u.id == e.variantId) = some v ∧
          requestedQty es e.variantId ≤ v.quantity := by
  unfold validateStock
  rw [List.all_eq_true]
  constructor
  · intro h e he hne
    have hp := h e (List.mem_filter.2 ⟨he, by simp [hne]⟩)
    cases hf : (st.variants.getD []).find? (fun u => u.id == e.variantId) with
    | none => rw [hf] at hp; simp at hp
    | some v =>
      rw [hf] at hp
      exact ⟨v, rfl, by simpa using hp⟩
  · intro h x hx
    have hmem := List.mem_filter.1 hx
    obtain ⟨v, hv, hle⟩ := h x hmem.1 (by simpa using hmem.2)
    simp [hv, hle]

/-- C7 (counterexample): a line with quantity 0 naming an unknown variant is
"discarded" in the claim's sense, yet it makes the whole sale fail (it enters
`validateStock`, whose lookup fails), while the same attempt restricted to
the remaining lines succeeds — outcomes differ, so discarded lines do affect
validation. -/
theorem sale_discarded_line_affects_validation :
    saleModalSubmit ⟨"s1", "Shoe", some "cat", some "", none, "2024-01-01", 5, 5, 100, 500,
        some [⟨"v1", "38", "red", 5⟩]⟩ (fun _ => "R0") "d"
        [⟨"e1", "v1", 1, 200⟩, ⟨"e2", "ghost", 0, 200⟩]
      = .error .insufficientStock ∧
    saleModalSubmit ⟨"s1", "Shoe", some "cat", some "", none, "2024-01-01", 5, 5, 100, 500,
        some [⟨"v1", "38", "red", 5⟩]⟩ (fun _ => "R0") "d"
        ([⟨"e1", "v1", 1, 200⟩, ⟨"e2", "ghost", 0, 200⟩].filter isValidEntry)
      = .ok [mkSaleRecord ⟨"s1", "Shoe", some "cat", some "", none, "2024-01-01", 5, 5, 100,
          500, some [⟨"v1", "38", "red", 5⟩]⟩ "R0" "d" ⟨"e1", "v1", 1, 200⟩] :=
  ⟨rfl, rfl⟩

/-- C7 (amended): the outcome is decided by validating ALL lines before
discarding: the attempt succeeds iff every line with a non-empty `variantId`
— including lines with quantity ≤ 0 — references an existing variant whose
stock covers the quantity summed over all lines naming it, and at least one
valid line (positive quantity, non-empty `variantId`) remains; otherwise it
fails (insufficient-stock error when validation fails, empty-sale error when
no valid line remains). -/
theorem sale_validation_amended (st : StockItem) (rid : ℕ → String) (d : String)
    (es : List PriceEntry) :
    (∃ rs, saleModalSubmit st rid d es = .ok rs) ↔
      ((∀ e ∈ es, e.variantId ≠ "" →
          ∃ v, (st.variants.getD []).find? (fun u => u.id == e.variantId) = some v ∧
            requestedQty es e.variantId ≤ v.quantity) ∧
        ∃ e ∈ es, isValidEntry e = true) := by
  rw [← validateStock_eq_true_iff]
  unfold saleModalSubmit
  by_cases hval : validateStock st es = true
  · rw [if_pos hval]
    by_cases hemp : (es.filter isValidEntry).isEmpty
    · rw [if_pos hemp]
      simp only [List.isEmpty_iff, List.filter_eq_nil_iff] at hemp
      simp only [hval, true_and]
      constructor
      · rintro ⟨rs, h⟩
        exact absurd h (by simp)
      · rintro ⟨e, he, hv⟩
        exact absurd hv (by simp [hemp e he])
    · rw [if_neg hemp]
      simp only [List.isEmpty_iff, List.filter_eq_nil_iff, not_forall] at hemp
      obtain ⟨e, he, hv⟩ := hemp
      exact ⟨fun _ => ⟨hval, e, he, by simpa using hv⟩, fun _ => ⟨_, rfl⟩⟩
  · rw [if_neg hval]
    constructor
    · rintro ⟨rs, h⟩
      exact absurd h (by simp)
    · rintro ⟨h, -⟩
      exact absurd h hval

/-- Witness for C7's amended characterization: a single in-stock line
succeeds. -/
theorem sale_validation_amended_witness :
    ∃ rs, saleModalSubmit ⟨"s1", "Shoe", some "cat", some "", none, "2024-01-01", 5, 5, 100,
        500, some [⟨"v1", "38", "red", 5⟩]⟩ (fun _ => "R0") "d" [⟨"e1", "v1", 1, 200⟩]
      = .ok rs :=
  (sale_validation_amended _ _ _ _).mpr
    ⟨by
      intro e he hne
      rw [List.mem_singleton] at he
      subst he
      exact ⟨⟨"v1", "38", "red", 5⟩, by decide, by decide⟩,
     ⟨⟨"e1", "v1", 1, 200⟩, by decide, by decide⟩⟩

/-! ## C5 — refund is a right inverse of sale -/

theorem map_untouched (tid : String) (g : StockItem → StockItem)
    (l : List StockItem) (h : ∀ x ∈ l, x.id ≠ tid) :
    (l.map fun item => if item.id == tid then g item else item) = l := by
  induction l with
  | nil => rfl
  | cons x t ih =>
    have hx : (x.id == tid) = false := beq_eq_false_iff_ne.mpr (h x (by simp))
    rw [List.map_cons, hx, ih fun y hy => h y (by simp [hy])]
    simp

theorem find?_id_at (tid : String) (l₁ l₂ : List StockItem) (a : StockItem)
    (ha : a.id = tid) (h₁ : ∀ x ∈ l₁, x.id ≠ tid) :
    (l₁ ++ a :: l₂).find? (fun s => s.id == tid) = some a := by
  induction l₁ with
  | nil => simp [List.find?_cons, ha]
  | cons x t ih =>
    have hx : (x.id == tid) = false := beq_eq_false_iff_ne.mpr (h₁ x (by simp))
    rw [List.cons_append, List.find?_cons_of_neg _ (by simp [hx])]
    exact ih fun y hy => h₁ y (by simp [hy])

theorem applySale_single (r : SaleRecord) (w₁ w₂ : List StockVariant)
    (v : StockVariant) (hvid : r.variantId = some v.id)
    (hW : ∀ u ∈ w₁ ++ w₂, u.id ≠ v.id) :
    applySaleVariants [r] (w₁ ++ v :: w₂)
      = w₁ ++ { v with quantity := max 0 (v.quantity - r.quantitySold) } :: w₂ := by
  have hside : ∀ (l : List StockVariant), (∀ u ∈ l, u.id ≠ v.id) →
      applySaleVariants [r] l = l := by
    intro l hl
    induction l with
    | nil => rfl
    | cons u t ih =>
      have hu : (r.variantId == some u.id) = false := by
        rw [hvid]
        exact beq_eq_false_iff_ne.mpr (by simpa using (hl u (by simp)).symm)
      have ht := ih fun y hy => hl y (by simp [hy])
      simp only [applySaleVariants, List.map_cons] at ht ⊢
      rw [List.find?_cons_of_neg _ (by simp [hu]), List.find?_nil, ht]
  have hv : List.find? (fun rr => rr.variantId == some v.id) [r] = some r :=
    List.find?_cons_of_pos _ (by simp [hvid])
  unfold applySaleVariants
  rw [List.map_append, List.map_cons, hv]
  have e₁ := hside w₁ fun u hu => hW u (List.mem_append_left _ hu)
  have e₂ := hside w₂ fun u hu => hW u (List.mem_append_right _ hu)
  unfold applySaleVariants at e₁ e₂
  rw [e₁, e₂]

theorem refund_single (r : SaleRecord) (w₁ w₂ : List StockVariant)
    (v : StockVariant) (hvid : r.variantId = some v.id)
    (hW : ∀ u ∈ w₁ ++ w₂, u.id ≠ v.id) :
    refundVariants r (w₁ ++ v :: w₂)
      = w₁ ++ { v with quantity := v.quantity + r.quantitySold } :: w₂ := by
  have hside : ∀ (l : List StockVariant), (∀ u ∈ l, u.id ≠ v.id) →
      refundVariants r l = l := by
    intro l hl
    refine refundVariants_no_match fun u hu heq => ?_
    rw [hvid] at heq
    exact (hl u hu) (Option.some.injEq _ _ ▸ heq).symm
  have hv : (r.variantId == some v.id) = true := by simp [hvid]
  unfold refundVariants
  rw [List.map_append, List.map_cons, hv]
  have e₁ := hside w₁ fun u hu => hW u (List.mem_append_left _ hu)
  have e₂ := hside w₂ fun u hu => hW u (List.mem_append_right _ hu)
  unfold refundVariants at e₁ e₂
  rw [e₁, e₂]
  simp

/-- C5: selling `q ≤ v.quantity` units of variant `v` of an item satisfying
the `currentQuantity` invariant, then refunding that exact record, restores
the application state: the variant's quantity, the item's `currentQuantity`
and every other field are back to their pre-sale values and the record is
removed from the ledger.  The id-freshness and id-uniqueness hypotheses
reflect `crypto.randomUUID()` and the form's `generateId()`. -/
theorem refund_reverses_sale
    (l₁ l₂ : List StockItem) (it : StockItem) (w₁ w₂ : List StockVariant)
    (v : StockVariant) (sales : List SaleRecord) (r : SaleRecord)
    (hvars : it.variants = some (w₁ ++ v :: w₂))
    (hL : ∀ x ∈ l₁ ++ l₂, x.id ≠ it.id)
    (hW : ∀ u ∈ w₁ ++ w₂, u.id ≠ v.id)
    (hsid : r.stockId = it.id)
    (hvid : r.variantId = some v.id)
    (hq : r.quantitySold ≤ v.quantity)
    (hinv : it.currentQuantity = variantSum (w₁ ++ v :: w₂))
    (hfresh : ∀ s ∈ sales, s.id ≠ r.id) :
    handleRefund r (handleConfirmSale [r] ⟨l₁ ++ it :: l₂, sales⟩) =
      ⟨l₁ ++ it :: l₂, sales⟩ := by
  have h₁ : ∀ x ∈ l₁, x.id ≠ r.stockId := fun x hx =>
    hsid ▸ hL x (List.mem_append_left _ hx)
  have h₂ : ∀ x ∈ l₂, x.id ≠ r.stockId := fun x hx =>
    hsid ▸ hL x (List.mem_append_right _ hx)
  have hitid : (it.id == r.stockId) = true := by simp [hsid]
  have hmax : max 0 (v.quantity - r.quantitySold) = v.quantity - r.quantitySold :=
    max_eq_right (sub_nonneg.2 hq)
  have step1 : handleConfirmSale [r] ⟨l₁ ++ it :: l₂, sales⟩ =
      ⟨l₁ ++ ({ it with
          variants := some (w₁ ++ { v with quantity := v.quantity - r.quantitySold } :: w₂),
          currentQuantity :=
            variantSum (w₁ ++ { v with quantity := v.quantity - r.quantitySold } :: w₂) }) :: l₂,
        r :: sales⟩ := by
    simp only [handleConfirmSale]
    refine congrArg₂ AppState.mk ?_ rfl
    rw [List.map_append, List.map_cons, map_untouched _ _ l₁ h₁, map_untouched _ _ l₂ h₂,
      hitid]
    simp only [if_true, hvars, applySale_single r w₁ w₂ v hvid hW, hmax]
  rw [step1]
  unfold handleRefund
  have hit'id : ({ it with
      variants := some (w₁ ++ { v with quantity := v.quantity - r.quantitySold } :: w₂),
      currentQuantity :=
        variantSum (w₁ ++ { v with quantity := v.quantity - r.quantitySold } :: w₂) } :
      StockItem).id = r.stockId := hsid.symm
  rw [find?_id_at r.stockId l₁ l₂ _ hit'id h₁]
  have hsales : (r :: sales).filter (fun s => !(s.id == r.id)) = sales := by
    rw [List.filter_cons]
    simp only [beq_self_eq_true, Bool.not_true, Bool.false_eq_true, if_false]
    exact List.filter_eq_self.mpr fun s hs => by
      simpa using hfresh s hs
  refine congrArg₂ AppState.mk ?_ hsales
  rw [List.map_append, List.map_cons, map_untouched _ _ l₁ h₁, map_untouched _ _ l₂ h₂]
  have hvid' : r.variantId = some (({ v with quantity := v.quantity - r.quantitySold } :
      StockVariant).id) := hvid
  rw [hitid]
  simp only [if_true, Option.map_some',
    refund_single r w₁ w₂ ({ v with quantity := v.quantity - r.quantitySold }) hvid'
      (by simpa using hW)]
  have hv : ({ v with quantity := v.quantity - r.quantitySold + r.quantitySold } :
      StockVariant) = v := by
    have : v.quantity - r.quantitySold + r.quantitySold = v.quantity := by ring
    rw [this]
  rw [hv, ← hvars, ← hinv]

/-- Witness for C5: sell 2 of a variant holding 5 and refund it; the state is
restored exactly. -/
theorem refund_reverses_sale_witness :
    handleRefund ⟨"r1", "s1", some "v1", some "38", some "red", 2, 200, "d", 400, 200⟩
        (handleConfirmSale [⟨"r1", "s1", some "v1", some "38", some "red", 2, 200, "d", 400, 200⟩]
          ⟨[⟨"s1", "Shoe", some "cat", some "", none, "2024-01-01", 5, 5, 100, 500,
              some [⟨"v1", "38", "red", 5⟩]⟩], []⟩)
      = ⟨[⟨"s1", "Shoe", some "cat", some "", none, "2024-01-01", 5, 5, 100, 500,
            some [⟨"v1", "38", "red", 5⟩]⟩], []⟩ := by
  have h := refund_reverses_sale [] []
    ⟨"s1", "Shoe", some "cat", some "", none, "2024-01-01", 5, 5, 100, 500,
      some [⟨"v1", "38", "red", 5⟩]⟩ [] [] ⟨"v1", "38", "red", 5⟩ []
    ⟨"r1", "s1", some "v1", some "38", some "red", 2, 200, "d", 400, 200⟩
    (by decide) (by decide) (by decide) (by decide) (by decide) (by decide) (by decide)
    (by decide)
  simpa using h

/-! ## C8 — `salesToday` counts by local calendar date

The comparison in `stats` is by the string
`` `${y}-${m}-${d}` `` of local components; the lemmas below show that this
string determines the components, so the comparison is exactly same-local-date
(and independent of the hour/minute fields of the dates). -/

theorem digitVal_digitChar : ∀ d : ℕ, d < 10 →
    digitVal (Nat.digitChar d) = d ∧ Nat.digitChar d ≠ '-' := by decide

theorem toDigitsCore_eq_repChars : ∀ (fuel n : ℕ) (ds : List Char), n < fuel →
    Nat.toDigitsCore 10 fuel n ds = repChars n ++ ds := by
  intro fuel
  induction fuel with
  | zero => intro n ds h; omega
  | succ f ih =>
    intro n ds h
    by_cases h10 : n < 10
    · have hdiv : n / 10 = 0 := Nat.div_eq_of_lt h10
      have hmod : n % 10 = n := Nat.mod_eq_of_lt h10
      rw [Nat.toDigitsCore]
      simp only [hdiv, hmod, if_pos]
      rw [repChars, dif_pos h10]
      rfl
    · have hdiv : ¬ (n / 10 = 0) := by
        rw [Nat.div_eq_zero_iff (by omega)]
        exact h10
      rw [Nat.toDigitsCore]
      rw [if_neg hdiv]
      have hlt : n / 10 < f := by
        have := Nat.div_lt_self (show 0 < n by omega) (show 1 < 10 by omega)
        omega
      rw [ih (n / 10) _ hlt]
      conv_rhs => rw [repChars]
      rw [dif_neg h10]
      simp

theorem repr_eq_repChars (n : ℕ) : Nat.repr n = (repChars n).asString := by
  unfold Nat.repr Nat.toDigits
  rw [toDigitsCore_eq_repChars (n + 1) n [] (Nat.lt_succ_self n), List.append_nil]

theorem decodeChars_repChars (n : ℕ) : decodeChars (repChars n) = n := by
  induction n using Nat.strong_induction_on with
  | _ n ih =>
    by_cases h10 : n < 10
    · rw [repChars, dif_pos h10]
      show 10 * 0 + digitVal (Nat.digitChar n) = n
      rw [(digitVal_digitChar n h10).1]
      omega
    · rw [repChars, dif_neg h10]
      unfold decodeChars
      rw [List.foldl_append]
      have hdiv := ih (n / 10) (Nat.div_lt_self (by omega) (by omega))
      unfold decodeChars at hdiv
      rw [hdiv, List.foldl_cons, List.foldl_nil,
        (digitVal_digitChar (n % 10) (Nat.mod_lt _ (by omega))).1]
      omega

theorem repChars_inj {m n : ℕ} (h : repChars m = repChars n) : m = n := by
  have hm := decodeChars_repChars m
  rw [h, decodeChars_repChars] at hm
  exact hm.symm

theorem dash_not_mem_repChars (n : ℕ) : '-' ∉ repChars n := by
  induction n using Nat.strong_induction_on with
  | _ n ih =>
    by_cases h10 : n < 10
    · rw [repChars, dif_pos h10]
      simp only [List.mem_singleton]
      intro hc
      exact (digitVal_digitChar n h10).2 hc.symm
    · rw [repChars, dif_neg h10]
      intro hmem
      rcases List.mem_append.1 hmem with hm | hm
      · exact ih (n / 10) (Nat.div_lt_self (by omega) (by omega)) hm
      · simp only [List.mem_singleton] at hm
        exact (digitVal_digitChar (n % 10) (Nat.mod_lt _ (by omega))).2 hm.symm

theorem append_dash_inj : ∀ {a₁ : List Char} {a₂ b₁ b₂ : List Char}, '-' ∉ a₁ → '-' ∉ a₂ →
    a₁ ++ '-' :: b₁ = a₂ ++ '-' :: b₂ → a₁ = a₂ ∧ b₁ = b₂ := by
  intro a₁
  induction a₁ with
  | nil =>
    intro a₂ b₁ b₂ _ h₂ h
    cases a₂ with
    | nil => simpa using h
    | cons c t =>
      rw [List.nil_append, List.cons_append, List.cons_eq_cons] at h
      exact absurd (h.1 ▸ List.mem_cons_self c t) h₂
  | cons c t ih =>
    intro a₂ b₁ b₂ h₁ h₂ h
    cases a₂ with
    | nil =>
      rw [List.nil_append, List.cons_append, List.cons_eq_cons] at h
      exact absurd (h.1 ▸ List.mem_cons_self c t) h₁
    | cons c' t' =>
      rw [List.cons_append, List.cons_append, List.cons_eq_cons] at h
      obtain ⟨rfl, h'⟩ := h
      obtain ⟨ht, hb⟩ := ih (fun hm => h₁ (List.mem_cons_of_mem _ hm))
        (fun hm => h₂ (List.mem_cons_of_mem _ hm)) h'
      exact ⟨by rw [ht], hb⟩

theorem dateKey_inj {d₁ d₂ : JSDate} (h : dateKey d₁ = dateKey d₂) :
    d₁.localYear = d₂.localYear ∧ d₁.localMonth = d₂.localMonth ∧
      d₁.localDay = d₂.localDay := by
  unfold dateKey at h
  rw [repr_eq_repChars, repr_eq_repChars, repr_eq_repChars, repr_eq_repChars,
    repr_eq_repChars, repr_eq_repChars] at h
  have hd := congrArg String.data h
  simp only [String.data_append, List.asString, List.append_assoc,
    List.singleton_append] at hd
  have h1 := append_dash_inj (dash_not_mem_repChars _) (dash_not_mem_repChars _) hd
  have h2 := append_dash_inj (dash_not_mem_repChars _) (dash_not_mem_repChars _) h1.2
  exact ⟨repChars_inj h1.1, repChars_inj h2.1, repChars_inj h2.2⟩

theorem dateKey_beq_eq_sameLocalDate (a b : JSDate) :
    (dateKey a == dateKey b) = sameLocalDate a b := by
  rw [Bool.eq_iff_iff]
  simp only [beq_iff_eq, sameLocalDate, Bool.and_eq_true]
  constructor
  · intro hc
    obtain ⟨hy, hm, hd⟩ := dateKey_inj hc
    exact ⟨⟨hy, hm⟩, hd⟩
  · rintro ⟨⟨hy, hm⟩, hd⟩
    unfold dateKey
    rw [hy, hm, hd]

/-- C8: `salesToday` counts exactly the sales whose `saleDate`, interpreted in
the observer's local time zone (`env` embeds `new Date(s)` with the local
accessors `getFullYear`/`getMonth`/`getDate`), falls on the same local
calendar date as `now` — the hour and minute fields (e.g. a sale at 23:59)
play no role, and no elapsed-24-hour window is involved. -/
theorem salesToday_counts_local_calendar_date (env : String → JSDate)
    (now : JSDate) (σ : AppState) :
    (statsOf env now σ).salesToday
      = (σ.sales.filter fun s => sameLocalDate (env s.saleDate) now).length := by
  unfold statsOf
  rw [List.filter_congr fun s _ => dateKey_beq_eq_sameLocalDate (env s.saleDate) now]

/-! ## C9 — export/import round-trip -/

theorem decodeVariant_encode (v : StockVariant) :
    decodeVariant (encodeVariant v) = some v := rfl

theorem mapM_loop_decodeVariant (vs acc : List StockVariant) :
    List.mapM.loop decodeVariant (vs.map encodeVariant) acc
      = some (acc.reverse ++ vs) := by
  induction vs generalizing acc with
  | nil => simp [List.mapM.loop]
  | cons v t ih =>
    rw [List.map_cons, List.mapM.loop, decodeVariant_encode]
    show List.mapM.loop decodeVariant (t.map encodeVariant) (v :: acc)
      = some (acc.reverse ++ v :: t)
    rw [ih]
    simp

theorem decodeStockItem_encode (it : StockItem) :
    decodeStockItem (encodeStockItem it) = some it := by
  obtain ⟨id, nm, cat, desc, img, pd, iq, cq, uc, tc, vars⟩ := it
  cases cat <;> cases desc <;> cases img <;> cases vars <;>
    simp [encodeStockItem, decodeStockItem, decodeOptStr, optStrField,
      Json.lookup, lookupField, Json.asStr, Json.asNum, mapM_loop_decodeVariant]

theorem decodeSaleRecord_encode (r : SaleRecord) :
    decodeSaleRecord (encodeSaleRecord r) = some r := by
  obtain ⟨id, sid, vid, sz, co, qs, sp, sd, tr, pf⟩ := r
  cases vid <;> cases sz <;> cases co <;>
    simp [encodeSaleRecord, decodeSaleRecord, decodeOptStr, optStrField,
      Json.lookup, lookupField, Json.asStr, Json.asNum]

theorem mapM_decodeStockItem (l : List StockItem) :
    (l.map encodeStockItem).mapM decodeStockItem = some l := by
  induction l with
  | nil => rfl
  | cons it t ih =>
    rw [List.map_cons, List.mapM_cons, decodeStockItem_encode, ih]
    rfl

theorem mapM_decodeSaleRecord (l : List SaleRecord) :
    (l.map encodeSaleRecord).mapM decodeSaleRecord = some l := by
  induction l with
  | nil => rfl
  | cons r t ih =>
    rw [List.map_cons, List.mapM_cons, decodeSaleRecord_encode, ih]
    rfl

/-- C9: for every `(stocks, sales)` snapshot, the exported backup document is
accepted by the import validation, the imported state is exactly the
document's `stocks` and `sales` arrays (independent of the state being
replaced — a wholesale replacement), and those arrays decode field-by-field
to the original stocks and sales. -/
theorem export_import_roundtrip (σ : AppState) (d : String) :
    importData (exportData σ d)
      = some (σ.stocks.map encodeStockItem, Json.arr (σ.sales.map encodeSaleRecord)) ∧
    (σ.stocks.map encodeStockItem).mapM decodeStockItem = some σ.stocks ∧
    (σ.sales.map encodeSaleRecord).mapM decodeSaleRecord = some σ.sales :=
  ⟨rfl, mapM_decodeStockItem σ.stocks, mapM_decodeSaleRecord σ.sales⟩

end ShoeStore
